import Mathlib

/-!
Shallow embedding of `src/src/mount/bsd.rs` (FreeBSD mount support of the
nix crate): the `Nmount` option-list builder, its insertion operations, the
finalizing `nmount` call, the `Drop` release pass, and `unmount`.

Modelling conventions:
* Byte strings are `List Nat`.  A Rust `&CStr` argument is represented by
  its bytes without the trailing NUL; `to_bytes_with_nul` appends `0`.
* A raw pointer (`iov_base`) is represented by what it references:
  `Ptr.slice` for a caller-borrowed slice, `Ptr.owned` for a fresh heap
  allocation made by `push_nix_path` (carrying a fresh address so that
  release counting is meaningful), `Ptr.raw` for the caller-supplied raw
  pointer of `mut_ptr_opt`, and `Ptr.buf` for the call-local errmsg buffer.
* The Rust global allocator is modelled by the `allocNext` counter carried
  alongside the two vectors; every `push_nix_path` allocation gets the
  fresh address `allocNext`.
* The kernel is an oracle: the return code of the syscall, the value of
  `errno`, and the bytes the kernel leaves in the 255-byte errmsg buffer.
-/

deriving instance DecidableEq for Except

namespace NixMountBsd

/-- Byte strings, as lists of byte values. -/
abbrev Bytes := List Nat

/-- Model of a raw pointer stored in an iovec: what it references, plus an
address when identity matters for the release pass. -/
inductive Ptr where
  /-- Pointer into a caller-borrowed slice (address abstracted away). -/
  | slice (bytes : Bytes)
  /-- Pointer returned by `CString::into_raw` in `push_nix_path`: a fresh
  heap allocation holding an independent copy of the bytes. -/
  | owned (addr : Nat) (bytes : Bytes)
  /-- Caller-supplied raw pointer of `mut_ptr_opt`. -/
  | raw (addr : Nat)
  /-- Pointer into the call-local 255-byte errmsg buffer of `nmount`. -/
  | buf (bytes : Bytes)
deriving DecidableEq, Repr

/-- Model of `libc::iovec`: a pointer plus a length. -/
structure iovec where
  iov_base : Ptr
  iov_len : Nat
deriving DecidableEq, Repr

/-- Model of the `Nmount` builder: the `iov` vector, the parallel
`is_owned` vector, and the allocator counter (`allocNext` is not a field of
the Rust struct; it models the global allocator handing out fresh
addresses). -/
structure Nmount where
  iov : List iovec
  is_owned : List Bool
  allocNext : Nat
deriving DecidableEq, Repr

/-- Rust `Nmount::new` (`Default`): both vectors empty. -/
def Nmount.new : Nmount := ⟨[], [], 0⟩

/-- Rust `Nmount::push_slice`: push a borrowed slice and its ownership tag. -/
def Nmount.push_slice (st : Nmount) (val : Bytes) (owned : Bool) : Nmount :=
  { st with
    iov := st.iov ++ [⟨Ptr.slice val, val.length⟩]
    is_owned := st.is_owned ++ [owned] }

/-- Rust `Nmount::push_pointer_and_length`: push an arbitrary pointer with
an explicit length and its ownership tag. -/
def Nmount.push_pointer_and_length (st : Nmount) (p : Ptr) (len : Nat)
    (owned : Bool) : Nmount :=
  { st with
    iov := st.iov ++ [⟨p, len⟩]
    is_owned := st.is_owned ++ [owned] }

/-- FreeBSD `EINVAL`. -/
def EINVAL : Nat := 22

/-- Modelled from the spec: `NixPath::with_nix_path` (the `NixPath` trait
implementations live outside `src/`).  Converting caller bytes to a C
string fails with `EINVAL` when the bytes contain an interior NUL;
otherwise the closure receives the NUL-terminated C string. -/
def with_nix_path (bytes : Bytes) : Except Nat Bytes :=
  if 0 ∈ bytes then Except.error EINVAL else Except.ok (bytes ++ [0])

/-- Rust `Nmount::push_nix_path`: convert `val` to a C string, copy it into
a fresh heap allocation (`s.to_owned().into_raw()`), and push the pointer
with the length of the NUL-terminated bytes, tagged as owned.  The
`.unwrap()` on a conversion failure is a panic, modelled as `none`. -/
def Nmount.push_nix_path (st : Nmount) (val : Bytes) : Option Nmount :=
  match with_nix_path val with
  | Except.error _ => none
  | Except.ok s =>
      some { st.push_pointer_and_length (Ptr.owned st.allocNext s) s.length true
              with allocNext := st.allocNext + 1 }

/-- Rust `Nmount::mut_ptr_opt`: push the borrowed name (with NUL) and the
caller-supplied raw pointer with explicit length, both tagged borrowed. -/
def Nmount.mut_ptr_opt (st : Nmount) (name : Bytes) (addr : Nat)
    (len : Nat) : Nmount :=
  (st.push_slice (name ++ [0]) false).push_pointer_and_length
    (Ptr.raw addr) len false

/-- Rust `Nmount::null_opt`: push the borrowed name (with NUL) and an empty
borrowed value, both tagged borrowed. -/
def Nmount.null_opt (st : Nmount) (name : Bytes) : Nmount :=
  (st.push_slice (name ++ [0]) false).push_slice [] false

/-- Rust `Nmount::null_opt_owned`: push the name as an owned copy via
`push_nix_path`, then an empty borrowed value tagged `false`. -/
def Nmount.null_opt_owned (st : Nmount) (name : Bytes) : Option Nmount :=
  (st.push_nix_path name).map fun st1 => st1.push_slice [] false

/-- Rust `Nmount::str_opt`: push the borrowed name and value (each with
their NUL), both tagged borrowed. -/
def Nmount.str_opt (st : Nmount) (name val : Bytes) : Nmount :=
  (st.push_slice (name ++ [0]) false).push_slice (val ++ [0]) false

/-- Rust `Nmount::str_opt_owned`: push both the name and the value as owned
copies via `push_nix_path`. -/
def Nmount.str_opt_owned (st : Nmount) (name val : Bytes) : Option Nmount :=
  (st.push_nix_path name).bind fun st1 => st1.push_nix_path val

/-- Modelled from the spec: `Errno::result` (`src/errno.rs` is not under
`src/`).  Per the spec, a non-negative raw return value means success and a
negative one means failure carrying the thread error code. -/
def errnoResult (res : Int) (errnoVal : Nat) : Except Nat Int :=
  if res < 0 then Except.error errnoVal else Except.ok res

/-- Rust `CStr::from_bytes_until_nul`: succeeds with the bytes strictly
before the first NUL when a NUL exists, and fails otherwise. -/
def from_bytes_until_nul (b : Bytes) : Option Bytes :=
  if 0 ∈ b then some (b.takeWhile fun x => x ≠ 0) else none

/-- Model of `NmountError`: the wrapped errno value and the optional
message.  The message is kept as the bytes of the `CStr` handed to
`NmountError::new`; `CStr::to_string_lossy` is the identity at this byte
level of modelling. -/
structure NmountError where
  errno : Nat
  errmsg : Option Bytes
deriving DecidableEq, Repr

/-- Rust `NmountError::new`. -/
def NmountError.new (error : Nat) (errmsg : Option Bytes) : NmountError :=
  ⟨error, errmsg⟩

/-- Result type of the finalizing call, mirroring `NmountResult`. -/
abbrev NmountResult := Except NmountError Unit

/-- Kernel oracle for one `libc::nmount` invocation: the raw return code,
the errno value observed on failure, and the bytes the kernel leaves in the
255-byte errmsg buffer when the call returns. -/
structure KernelNmount where
  res : Int
  errnoVal : Nat
  bufAfter : Bytes
deriving DecidableEq, Repr

/-- The bytes of the constant `ERRMSG_NAME` = `b"errmsg\x00"`. -/
def ERRMSG_NAME : Bytes := [101, 114, 114, 109, 115, 103, 0]

/-- Rust `Nmount::nmount`: push the borrowed errmsg name via `push_slice`,
push the pointer to the freshly zero-initialized 255-byte buffer directly
onto `iov` (no `is_owned` entry), issue the syscall, and interpret the
result.  Returns the state of the builder after the call (it is borrowed
mutably, not consumed) together with the `NmountResult`. -/
def Nmount.nmount (st : Nmount) (flags : Int) (k : KernelNmount) :
    Nmount × NmountResult :=
  let st1 := st.push_slice ERRMSG_NAME false
  let st2 := { st1 with
    iov := st1.iov ++ [⟨Ptr.buf (List.replicate 255 0), 255⟩] }
  let _ := flags
  match errnoResult k.res k.errnoVal with
  | Except.ok _ => (st2, Except.ok ())
  | Except.error error =>
      let errmsg :=
        if k.bufAfter.headD 0 = 0 then none
        else from_bytes_until_nul k.bufAfter
      (st2, Except.error (NmountError.new error errmsg))

/-- Rust `Drop for Nmount`: walk `iov.iter().zip(is_owned.iter())` and free
every entry whose tag is `true`.  The model returns the list of pointers
passed to `CString::from_raw`, in order. -/
def Nmount.dropReleased (st : Nmount) : List Ptr :=
  (st.iov.zip st.is_owned).filterMap fun p =>
    if p.2 then some p.1.iov_base else none

/-- Addresses of the `Ptr.owned` pointers in a list. -/
def ownedAddrs (ps : List Ptr) : List Nat :=
  ps.filterMap fun p =>
    match p with
    | Ptr.owned a _ => some a
    | _ => none

/-- Kernel oracle for one `libc::unmount` invocation. -/
structure KernelUnmount where
  res : Int
  errnoVal : Nat
deriving DecidableEq, Repr

/-- Rust `unmount`: convert the mountpoint with `with_nix_path` (the `?`
propagates a conversion error), issue the syscall inside the closure, and
map the raw result through `Errno::result`.  The boolean records whether
the detach syscall was actually issued. -/
def unmount (mountpoint : Bytes) (flags : Int) (k : KernelUnmount) :
    Except Nat Unit × Bool :=
  let _ := flags
  match with_nix_path mountpoint with
  | Except.error e => (Except.error e, false)
  | Except.ok _ =>
      match errnoResult k.res k.errnoVal with
      | Except.ok _ => (Except.ok (), true)
      | Except.error e => (Except.error e, true)

/-- One insertion operation of the builder API (the arguments of each
public insertion method). -/
inductive Ins where
  | strOpt (name val : Bytes)
  | nullOpt (name : Bytes)
  | strOptOwned (name val : Bytes)
  | nullOptOwned (name : Bytes)
  | mutPtrOpt (name : Bytes) (addr len : Nat)
deriving DecidableEq, Repr

/-- Apply a sequence of insertion operations to a builder.  `none` models a
panic of the unwrap inside `push_nix_path`. -/
def applyIns (st : Nmount) : List Ins → Option Nmount
  | [] => some st
  | Ins.strOpt n v :: rest => applyIns (st.str_opt n v) rest
  | Ins.nullOpt n :: rest => applyIns (st.null_opt n) rest
  | Ins.strOptOwned n v :: rest =>
      (st.str_opt_owned n v).bind fun st1 => applyIns st1 rest
  | Ins.nullOptOwned n :: rest =>
      (st.null_opt_owned n).bind fun st1 => applyIns st1 rest
  | Ins.mutPtrOpt n a l :: rest => applyIns (st.mut_ptr_opt n a l) rest

/-- One insertion via an owned-string variant. -/
inductive OwnedIns where
  | strOpt (name val : Bytes)
  | nullOpt (name : Bytes)
deriving DecidableEq, Repr

/-- Apply a sequence of owned-string insertions to a builder. -/
def applyOwned (st : Nmount) : List OwnedIns → Option Nmount
  | [] => some st
  | OwnedIns.strOpt n v :: rest =>
      (st.str_opt_owned n v).bind fun st1 => applyOwned st1 rest
  | OwnedIns.nullOpt n :: rest =>
      (st.null_opt_owned n).bind fun st1 => applyOwned st1 rest

/-- Number of `str_opt_owned` insertions in a sequence. -/
def nStrOwned : List OwnedIns → Nat
  | [] => 0
  | OwnedIns.strOpt _ _ :: rest => nStrOwned rest + 1
  | OwnedIns.nullOpt _ :: rest => nStrOwned rest

/-- Number of `null_opt_owned` insertions in a sequence. -/
def nNullOwned : List OwnedIns → Nat
  | [] => 0
  | OwnedIns.strOpt _ _ :: rest => nNullOwned rest
  | OwnedIns.nullOpt _ :: rest => nNullOwned rest + 1

/-- Whether a pointer is one of the fresh heap allocations made by
`push_nix_path`. -/
def Ptr.isOwned : Ptr → Bool
  | Ptr.owned _ _ => true
  | _ => false

/-- The address of a pointer (0 for the address-abstracted kinds). -/
def addrOf : Ptr → Nat
  | Ptr.owned a _ => a
  | Ptr.raw a => a
  | _ => 0

/-- Invariant tying the release pass to the allocation history: the two
vectors stay aligned, only `push_nix_path` allocations are ever tagged for
release, and the addresses released by `Drop` are exactly the addresses the
allocator has handed out, in order. -/
def ReleaseInv (st : Nmount) : Prop :=
  st.iov.length = st.is_owned.length ∧
  (∀ p ∈ st.dropReleased, p.isOwned = true) ∧
  ownedAddrs st.dropReleased = List.range st.allocNext

/-- Concrete builder state reached from `new` by
`str_opt_owned [97] [98]` followed by `null_opt_owned [99]`. -/
def ownedDemo : Nmount :=
  ⟨[⟨Ptr.owned 0 [97, 0], 2⟩, ⟨Ptr.owned 1 [98, 0], 2⟩,
    ⟨Ptr.owned 2 [99, 0], 2⟩, ⟨Ptr.slice [], 0⟩],
   [true, true, true, false], 3⟩

/-- Concrete builder state reached from `new` by `str_opt [97] [98]`
followed by `null_opt_owned [99]`. -/
def parityDemo : Nmount :=
  ⟨[⟨Ptr.slice [97, 0], 2⟩, ⟨Ptr.slice [98, 0], 2⟩,
    ⟨Ptr.owned 0 [99, 0], 2⟩, ⟨Ptr.slice [], 0⟩],
   [false, false, true, false], 1⟩

/-- Concrete builder state reached from `new` by `null_opt_owned [114, 111]`. -/
def nullOwnedDemo : Nmount :=
  ⟨[⟨Ptr.owned 0 [114, 111, 0], 3⟩, ⟨Ptr.slice [], 0⟩], [true, false], 1⟩

/-! ### Helper lemmas -/

lemma push_slice_def (st : Nmount) (v : Bytes) (t : Bool) :
    st.push_slice v t =
      ⟨st.iov ++ [⟨Ptr.slice v, v.length⟩], st.is_owned ++ [t],
        st.allocNext⟩ := rfl

lemma push_nix_path_eq {st st1 : Nmount} {v : Bytes}
    (h : st.push_nix_path v = some st1) :
    st1 = ⟨st.iov ++ [⟨Ptr.owned st.allocNext (v ++ [0]), v.length + 1⟩],
           st.is_owned ++ [true], st.allocNext + 1⟩ := by
  unfold Nmount.push_nix_path with_nix_path at h
  by_cases h0 : (0 : Nat) ∈ v
  · simp [h0] at h
  · simp [h0, Nmount.push_pointer_and_length] at h
    exact h.symm

lemma nmount_fst (st : Nmount) (flags : Int) (k : KernelNmount) :
    (st.nmount flags k).1 =
      ⟨(st.iov ++ [⟨Ptr.slice ERRMSG_NAME, 7⟩]) ++
                  [⟨Ptr.buf (List.replicate 255 0), 255⟩],
       st.is_owned ++ [false], st.allocNext⟩ := by
  unfold Nmount.nmount
  cases errnoResult k.res k.errnoVal <;> rfl

lemma nmount_snd (st : Nmount) (flags : Int) (k : KernelNmount) :
    (st.nmount flags k).2 =
      if k.res < 0 then
        Except.error (NmountError.new k.errnoVal
          (if k.bufAfter.headD 0 = 0 then none
           else from_bytes_until_nul k.bufAfter))
      else Except.ok () := by
  unfold Nmount.nmount errnoResult
  by_cases h : k.res < 0
  · simp only [if_pos h]
  · simp only [if_neg h]

lemma dropReleased_append (iov1 : List iovec) (tags1 : List Bool) (n : Nat)
    (e : iovec) (t : Bool) (h : iov1.length = tags1.length) :
    Nmount.dropReleased ⟨iov1 ++ [e], tags1 ++ [t], n⟩ =
      Nmount.dropReleased ⟨iov1, tags1, n⟩ ++
        (if t then [e.iov_base] else []) := by
  unfold Nmount.dropReleased
  simp only [List.zip_append h, List.filterMap_append]
  cases t <;> simp

lemma zip_extra_right {A B : Type} (l1 : List A) (l2 : List B) (r : List A)
    (h : l1.length = l2.length) : (l1 ++ r).zip l2 = l1.zip l2 := by
  induction l1 generalizing l2 with
  | nil =>
      cases l2 with
      | nil => simp
      | cons b bs => simp at h
  | cons a as ih =>
      cases l2 with
      | nil => simp at h
      | cons b bs =>
          simp only [List.cons_append, List.zip_cons_cons]
          rw [ih bs (by simpa using h)]

lemma dropReleased_nmount (st : Nmount) (flags : Int) (k : KernelNmount)
    (h : st.iov.length = st.is_owned.length) :
    ((st.nmount flags k).1).dropReleased = st.dropReleased := by
  rw [nmount_fst]
  unfold Nmount.dropReleased
  have h2 : (st.iov ++ [(⟨Ptr.slice ERRMSG_NAME, 7⟩ : iovec)]).length
      = (st.is_owned ++ [false]).length := by simp [h]
  rw [zip_extra_right _ _ _ h2, List.zip_append h, List.filterMap_append]
  simp

lemma dropReleased_mk_alloc (iov1 : List iovec) (tags1 : List Bool)
    (n m : Nat) :
    Nmount.dropReleased ⟨iov1, tags1, n⟩ =
      Nmount.dropReleased ⟨iov1, tags1, m⟩ := rfl

lemma ownedAddrs_append (ps qs : List Ptr) :
    ownedAddrs (ps ++ qs) = ownedAddrs ps ++ ownedAddrs qs := by
  unfold ownedAddrs
  exact List.filterMap_append ps qs _

lemma str_opt_owned_eq {st st1 : Nmount} {n v : Bytes}
    (h : st.str_opt_owned n v = some st1) :
    st1 = ⟨(st.iov ++ [⟨Ptr.owned st.allocNext (n ++ [0]), n.length + 1⟩]) ++
             [⟨Ptr.owned (st.allocNext + 1) (v ++ [0]), v.length + 1⟩],
           (st.is_owned ++ [true]) ++ [true], st.allocNext + 2⟩ := by
  unfold Nmount.str_opt_owned at h
  rw [Option.bind_eq_some] at h
  obtain ⟨a, ha, hb⟩ := h
  have e1 := push_nix_path_eq ha
  have e2 := push_nix_path_eq hb
  rw [e2, e1]

lemma null_opt_owned_eq {st st1 : Nmount} {n : Bytes}
    (h : st.null_opt_owned n = some st1) :
    st1 = ⟨(st.iov ++ [⟨Ptr.owned st.allocNext (n ++ [0]), n.length + 1⟩]) ++
             [⟨Ptr.slice [], 0⟩],
           (st.is_owned ++ [true]) ++ [false], st.allocNext + 1⟩ := by
  unfold Nmount.null_opt_owned at h
  rw [Option.map_eq_some'] at h
  obtain ⟨a, ha, hb⟩ := h
  have e1 := push_nix_path_eq ha
  rw [← hb, e1]
  rfl

lemma dropReleased_str_opt_owned {st st1 : Nmount} {n v : Bytes}
    (h : st.str_opt_owned n v = some st1)
    (hlen : st.iov.length = st.is_owned.length) :
    st1.dropReleased = st.dropReleased ++
      [Ptr.owned st.allocNext (n ++ [0]),
       Ptr.owned (st.allocNext + 1) (v ++ [0])] := by
  rw [str_opt_owned_eq h]
  rw [dropReleased_append _ _ _ _ _ (by simp [hlen])]
  rw [dropReleased_append _ _ _ _ _ hlen]
  rw [dropReleased_mk_alloc st.iov st.is_owned (st.allocNext + 2) st.allocNext]
  simp

lemma dropReleased_null_opt_owned {st st1 : Nmount} {n : Bytes}
    (h : st.null_opt_owned n = some st1)
    (hlen : st.iov.length = st.is_owned.length) :
    st1.dropReleased = st.dropReleased ++
      [Ptr.owned st.allocNext (n ++ [0])] := by
  rw [null_opt_owned_eq h]
  rw [dropReleased_append _ _ _ _ _ (by simp [hlen])]
  rw [dropReleased_append _ _ _ _ _ hlen]
  rw [dropReleased_mk_alloc st.iov st.is_owned (st.allocNext + 1) st.allocNext]
  simp

lemma releaseInv_new : ReleaseInv Nmount.new := by
  refine ⟨rfl, ?_, rfl⟩
  intro p hp
  simp [Nmount.new, Nmount.dropReleased] at hp

lemma releaseInv_step_str {st st1 : Nmount} {n v : Bytes}
    (h : st.str_opt_owned n v = some st1) (hinv : ReleaseInv st) :
    ReleaseInv st1 := by
  obtain ⟨hlen, hown, haddr⟩ := hinv
  have e := str_opt_owned_eq h
  have hdr := dropReleased_str_opt_owned h hlen
  refine ⟨?_, ?_, ?_⟩
  · rw [e]
    simp [hlen]
  · rw [hdr]
    intro p hp
    rcases List.mem_append.1 hp with h1 | h2
    · exact hown p h1
    · simp only [List.mem_cons, List.not_mem_nil, or_false] at h2
      rcases h2 with h2 | h2
      · rw [h2]; rfl
      · rw [h2]; rfl
  · rw [hdr, ownedAddrs_append, haddr, e]
    have h2 : st.allocNext + 2 = st.allocNext + 1 + 1 := rfl
    show List.range st.allocNext ++ _ = List.range (st.allocNext + 2)
    rw [h2, List.range_succ, List.range_succ]
    simp [ownedAddrs]

lemma releaseInv_step_null {st st1 : Nmount} {n : Bytes}
    (h : st.null_opt_owned n = some st1) (hinv : ReleaseInv st) :
    ReleaseInv st1 := by
  obtain ⟨hlen, hown, haddr⟩ := hinv
  have e := null_opt_owned_eq h
  have hdr := dropReleased_null_opt_owned h hlen
  refine ⟨?_, ?_, ?_⟩
  · rw [e]
    simp [hlen]
  · rw [hdr]
    intro p hp
    rcases List.mem_append.1 hp with h1 | h2
    · exact hown p h1
    · simp only [List.mem_cons, List.not_mem_nil, or_false] at h2
      rw [h2]
      rfl
  · rw [hdr, ownedAddrs_append, haddr, e]
    show List.range st.allocNext ++ _ = List.range (st.allocNext + 1)
    rw [List.range_succ]
    simp [ownedAddrs]

lemma applyOwned_inv {ops : List OwnedIns} {st st1 : Nmount}
    (h : applyOwned st ops = some st1) (hinv : ReleaseInv st) :
    ReleaseInv st1 ∧
      st1.allocNext = st.allocNext + (2 * nStrOwned ops + nNullOwned ops) := by
  induction ops generalizing st with
  | nil =>
      simp [applyOwned] at h
      subst h
      exact ⟨hinv, by simp [nStrOwned, nNullOwned]⟩
  | cons op rest ih =>
      cases op with
      | strOpt n v =>
          rw [applyOwned, Option.bind_eq_some] at h
          obtain ⟨a, ha, hrest⟩ := h
          have hinva := releaseInv_step_str ha hinv
          obtain ⟨hinv1, halloc⟩ := ih hrest hinva
          refine ⟨hinv1, ?_⟩
          have e := str_opt_owned_eq ha
          rw [halloc, e]
          show st.allocNext + 2 + _ = _
          simp [nStrOwned, nNullOwned]
          omega
      | nullOpt n =>
          rw [applyOwned, Option.bind_eq_some] at h
          obtain ⟨a, ha, hrest⟩ := h
          have hinva := releaseInv_step_null ha hinv
          obtain ⟨hinv1, halloc⟩ := ih hrest hinva
          refine ⟨hinv1, ?_⟩
          have e := null_opt_owned_eq ha
          rw [halloc, e]
          show st.allocNext + 1 + _ = _
          simp [nStrOwned, nNullOwned]
          omega

lemma ownedAddrs_eq_map {ps : List Ptr}
    (h : ∀ p ∈ ps, p.isOwned = true) :
    ownedAddrs ps = ps.map addrOf := by
  induction ps with
  | nil => rfl
  | cons p rest ih =>
      have hp := h p (List.mem_cons_self p rest)
      have hrest := ih fun q hq => h q (List.mem_cons_of_mem p hq)
      cases p with
      | owned a s =>
          show a :: ownedAddrs rest = a :: rest.map addrOf
          rw [hrest]
      | slice b => simp [Ptr.isOwned] at hp
      | raw a => simp [Ptr.isOwned] at hp
      | buf b => simp [Ptr.isOwned] at hp

lemma releaseInv_count {st : Nmount} (hinv : ReleaseInv st) :
    st.dropReleased.length = st.allocNext ∧ st.dropReleased.Nodup := by
  obtain ⟨-, hown, haddr⟩ := hinv
  have hmap := ownedAddrs_eq_map hown
  constructor
  · have hl : (st.dropReleased.map addrOf).length =
        (List.range st.allocNext).length := by
      rw [← hmap, haddr]
    simpa using hl
  · have hn : (st.dropReleased.map addrOf).Nodup := by
      rw [← hmap, haddr]
      exact List.nodup_range _
    exact List.Nodup.of_map addrOf hn

lemma applyIns_lens {ops : List Ins} {st st1 : Nmount}
    (h : applyIns st ops = some st1) :
    st1.iov.length = st.iov.length + 2 * ops.length ∧
    st1.is_owned.length = st.is_owned.length + 2 * ops.length := by
  induction ops generalizing st with
  | nil =>
      simp [applyIns] at h
      subst h
      simp
  | cons op rest ih =>
      cases op with
      | strOpt n v =>
          rw [applyIns] at h
          obtain ⟨h1, h2⟩ := ih h
          simp only [Nmount.str_opt, Nmount.push_slice, List.length_append,
            List.length_cons, List.length_nil] at h1 h2
          simp only [List.length_cons]
          omega
      | nullOpt n =>
          rw [applyIns] at h
          obtain ⟨h1, h2⟩ := ih h
          simp only [Nmount.null_opt, Nmount.push_slice, List.length_append,
            List.length_cons, List.length_nil] at h1 h2
          simp only [List.length_cons]
          omega
      | mutPtrOpt n a l =>
          rw [applyIns] at h
          obtain ⟨h1, h2⟩ := ih h
          simp only [Nmount.mut_ptr_opt, Nmount.push_slice,
            Nmount.push_pointer_and_length, List.length_append,
            List.length_cons, List.length_nil] at h1 h2
          simp only [List.length_cons]
          omega
      | strOptOwned n v =>
          rw [applyIns, Option.bind_eq_some] at h
          obtain ⟨a, ha, hrest⟩ := h
          have e := str_opt_owned_eq ha
          obtain ⟨h1, h2⟩ := ih hrest
          rw [e] at h1 h2
          simp only [List.length_append, List.length_cons,
            List.length_nil] at h1 h2
          simp only [List.length_cons]
          omega
      | nullOptOwned n =>
          rw [applyIns, Option.bind_eq_some] at h
          obtain ⟨a, ha, hrest⟩ := h
          have e := null_opt_owned_eq ha
          obtain ⟨h1, h2⟩ := ih hrest
          rw [e] at h1 h2
          simp only [List.length_append, List.length_cons,
            List.length_nil] at h1 h2
          simp only [List.length_cons]
          omega

/-! ### Claim theorems -/

/-- Claim C1 is false as stated: one insertion through the owned-string
flag-only variant `null_opt_owned` (N = 1) makes the release pass free
exactly one owned region, not 2N = 2, because the zero-length value entry
it pushes is tagged borrowed. -/
theorem owned_insertions_release_counterexample :
    (applyOwned Nmount.new [OwnedIns.nullOpt [114, 111]]).map
        (fun st => st.dropReleased.length) = some 1 ∧ (1 : Nat) ≠ 2 * 1 := by
  constructor
  · decide
  · decide

/-- Claim C1 (amended): for a builder built from `new` by owned-string
insertions only, the release pass of `Drop` — equally after the finalizing
`nmount` call or without it — frees exactly
`2 * (number of str_opt_owned) + (number of null_opt_owned)` regions, all
of them owned allocations, and the freed addresses are exactly the
allocated addresses with no repetition: no leak and no double release. -/
theorem owned_insertions_release_exactly_once
    (ops : List OwnedIns) (st : Nmount) (flags : Int) (k : KernelNmount)
    (h : applyOwned Nmount.new ops = some st) :
    st.dropReleased.length = 2 * nStrOwned ops + nNullOwned ops ∧
    st.dropReleased.all Ptr.isOwned = true ∧
    ownedAddrs st.dropReleased = List.range st.allocNext ∧
    st.dropReleased.Nodup ∧
    ((st.nmount flags k).1).dropReleased = st.dropReleased := by
  obtain ⟨hinv, halloc⟩ := applyOwned_inv h releaseInv_new
  obtain ⟨hcount, hnodup⟩ := releaseInv_count hinv
  obtain ⟨hlen, hown, haddr⟩ := hinv
  refine ⟨?_, List.all_eq_true.2 hown, haddr, hnodup,
    dropReleased_nmount st flags k hlen⟩
  have h0 : Nmount.new.allocNext = 0 := rfl
  omega

/-- Witness for claim C1's theorem at the two-insertion sequence
`str_opt_owned [97] [98]; null_opt_owned [99]`. -/
theorem owned_insertions_release_exactly_once_witness :
    applyOwned Nmount.new [OwnedIns.strOpt [97] [98], OwnedIns.nullOpt [99]]
        = some ownedDemo ∧
    (ownedDemo.dropReleased.length = 2 * 1 + 1 ∧
     ownedDemo.dropReleased.all Ptr.isOwned = true ∧
     ownedAddrs ownedDemo.dropReleased = List.range ownedDemo.allocNext ∧
     ownedDemo.dropReleased.Nodup ∧
     ((ownedDemo.nmount 0 ⟨0, 0, []⟩).1).dropReleased =
        ownedDemo.dropReleased) :=
  ⟨by decide,
   owned_insertions_release_exactly_once
     [OwnedIns.strOpt [97] [98], OwnedIns.nullOpt [99]]
     ownedDemo 0 ⟨0, 0, []⟩ (by decide)⟩

/-- Claim C2: when the kernel call fails and the first diagnostic byte is
non-zero, the error carries the buffer content up to (not including) the
first NUL; when the first byte is zero, the error carries no diagnostic. -/
theorem nmount_failure_diagnostic (st : Nmount) (flags : Int)
    (k : KernelNmount) (hres : k.res < 0) :
    (k.bufAfter.headD 0 ≠ 0 → 0 ∈ k.bufAfter →
      (st.nmount flags k).2 =
        Except.error ⟨k.errnoVal,
          some (k.bufAfter.takeWhile fun x => x ≠ 0)⟩) ∧
    (k.bufAfter.headD 0 = 0 →
      (st.nmount flags k).2 = Except.error ⟨k.errnoVal, none⟩) := by
  rw [nmount_snd]
  constructor
  · intro h0 hnul
    rw [if_pos hres, if_neg h0]
    simp [from_bytes_until_nul, hnul, NmountError.new]
  · intro h0
    rw [if_pos hres, if_pos h0]
    rfl

/-- Witness for claim C2's theorem at a failing call that leaves the bytes
104, 105, 0 in the diagnostic buffer. -/
theorem nmount_failure_diagnostic_witness :
    (-1 : Int) < 0 ∧
    ((([104, 105, 0] : Bytes).headD 0 ≠ 0 →
        (0 : Nat) ∈ ([104, 105, 0] : Bytes) →
        (Nmount.new.nmount 0 ⟨-1, 5, [104, 105, 0]⟩).2 =
          Except.error ⟨5, some [104, 105]⟩) ∧
     (([104, 105, 0] : Bytes).headD 0 = 0 →
        (Nmount.new.nmount 0 ⟨-1, 5, [104, 105, 0]⟩).2 =
          Except.error ⟨5, none⟩)) :=
  ⟨by decide,
   nmount_failure_diagnostic Nmount.new 0 ⟨-1, 5, [104, 105, 0]⟩ (by decide)⟩

/-- Claim C3: the finalizing call appends exactly one reserved pair as the
final two descriptors — the borrowed NUL-terminated name literal
`errmsg` and a zero-initialized 255-byte buffer — the pair adds only one
(false) ownership tag, and the owned-release pass frees exactly what it
would have freed without the reserved pair. -/
theorem nmount_reserved_errmsg_pair (st : Nmount) (flags : Int)
    (k : KernelNmount) (h : st.iov.length = st.is_owned.length) :
    ((st.nmount flags k).1).iov =
      st.iov ++ [⟨Ptr.slice ERRMSG_NAME, 7⟩,
                 ⟨Ptr.buf (List.replicate 255 0), 255⟩] ∧
    ((st.nmount flags k).1).is_owned = st.is_owned ++ [false] ∧
    ((st.nmount flags k).1).dropReleased = st.dropReleased := by
  refine ⟨?_, ?_, dropReleased_nmount st flags k h⟩
  · rw [nmount_fst]
    exact List.append_assoc st.iov [⟨Ptr.slice ERRMSG_NAME, 7⟩]
      [⟨Ptr.buf (List.replicate 255 0), 255⟩]
  · rw [nmount_fst]

/-- Witness for claim C3's theorem at the empty builder. -/
theorem nmount_reserved_errmsg_pair_witness :
    Nmount.new.iov.length = Nmount.new.is_owned.length ∧
    (((Nmount.new.nmount 0 ⟨0, 0, []⟩).1).iov =
        [⟨Ptr.slice ERRMSG_NAME, 7⟩,
         ⟨Ptr.buf (List.replicate 255 0), 255⟩] ∧
     ((Nmount.new.nmount 0 ⟨0, 0, []⟩).1).is_owned = [false] ∧
     ((Nmount.new.nmount 0 ⟨0, 0, []⟩).1).dropReleased =
        Nmount.new.dropReleased) :=
  ⟨rfl, nmount_reserved_errmsg_pair Nmount.new 0 ⟨0, 0, []⟩ rfl⟩

/-- Claim C4: from an empty builder, after any successful sequence of
insertion operations the entry vector and the ownership-tag vector have
equal length and that length is even — every insertion appends exactly one
name entry and one value entry. -/
theorem builder_pairs_parity (ops : List Ins) (st : Nmount)
    (h : applyIns Nmount.new ops = some st) :
    st.iov.length = st.is_owned.length ∧ st.iov.length % 2 = 0 := by
  obtain ⟨h1, h2⟩ := applyIns_lens h
  have e1 : Nmount.new.iov.length = 0 := rfl
  have e2 : Nmount.new.is_owned.length = 0 := rfl
  omega

/-- Witness for claim C4's theorem at the sequence
`str_opt [97] [98]; null_opt_owned [99]`. -/
theorem builder_pairs_parity_witness :
    applyIns Nmount.new [Ins.strOpt [97] [98], Ins.nullOptOwned [99]]
        = some parityDemo ∧
    (parityDemo.iov.length = parityDemo.is_owned.length ∧
     parityDemo.iov.length % 2 = 0) :=
  ⟨by decide,
   builder_pairs_parity [Ins.strOpt [97] [98], Ins.nullOptOwned [99]]
     parityDemo (by decide)⟩

/-- Claim C5 is false as stated: `null_opt_owned` tags the zero-length
value entry as borrowed (`false`), not owned — the resulting tag vector is
`[true, false]`, not `[true, true]`. -/
theorem null_opt_owned_value_tag_counterexample :
    (Nmount.new.null_opt_owned [114, 111]).map Nmount.is_owned
        = some [true, false] ∧
    ([true, false] : List Bool) ≠ [true, true] := by
  constructor
  · decide
  · decide

/-- Claim C5 (amended): `null_opt_owned` appends exactly two entries — an
independently copied NUL-terminated name and a zero-length value — with
the name's ownership tag owned (`true`) and the value's ownership tag
borrowed (`false`). -/
theorem null_opt_owned_appends_pair (st : Nmount) (name : Bytes)
    (st1 : Nmount) (h : st.null_opt_owned name = some st1) :
    st1.iov = st.iov ++
      [⟨Ptr.owned st.allocNext (name ++ [0]), name.length + 1⟩,
       ⟨Ptr.slice [], 0⟩] ∧
    st1.is_owned = st.is_owned ++ [true, false] := by
  have e := null_opt_owned_eq h
  rw [e]
  constructor
  · simp
  · simp

/-- Witness for claim C5's theorem at the empty builder and the name
bytes 114, 111. -/
theorem null_opt_owned_appends_pair_witness :
    Nmount.new.null_opt_owned [114, 111] = some nullOwnedDemo ∧
    (nullOwnedDemo.iov =
        [⟨Ptr.owned 0 [114, 111, 0], 3⟩, ⟨Ptr.slice [], 0⟩] ∧
     nullOwnedDemo.is_owned = [true, false]) :=
  ⟨by decide,
   null_opt_owned_appends_pair Nmount.new [114, 111] nullOwnedDemo
     (by decide)⟩

/-- Claim C6 is false as stated: after a (successful) finalizing call on a
builder holding one `null_opt` pair, the builder still holds 4 entries
(the original pair plus the reserved errmsg pair) rather than being
discarded, and a further `null_opt` insertion still applies, growing it to
6 entries. -/
theorem nmount_consuming_counterexample :
    (((Nmount.new.null_opt [114, 111]).nmount 0 ⟨0, 0, []⟩).1).iov ≠ [] ∧
    (((Nmount.new.null_opt [114, 111]).nmount 0 ⟨0, 0, []⟩).1).iov.length
        = 4 ∧
    ((((Nmount.new.null_opt [114, 111]).nmount 0 ⟨0, 0, []⟩).1).null_opt
        [97]).iov.length = 6 := by
  refine ⟨?_, ?_, ?_⟩
  · decide
  · decide
  · decide

/-- Claim C6 (amended): the finalizing call borrows the builder mutably
and does not consume it — afterwards the builder retains its accumulated
entries (followed by the two reserved errmsg descriptors) and further
insertion operations still apply and append as before; the entry sequence
is discarded, with owned entries released, only when the builder is
dropped. -/
theorem nmount_retains_builder (st : Nmount) (flags : Int)
    (k : KernelNmount) (name : Bytes) :
    ((st.nmount flags k).1).iov.take st.iov.length = st.iov ∧
    ((st.nmount flags k).1).iov.length = st.iov.length + 2 ∧
    (((st.nmount flags k).1).null_opt name).iov.length
        = st.iov.length + 4 := by
  refine ⟨?_, ?_, ?_⟩
  · rw [nmount_fst]
    show ((st.iov ++ _) ++ _).take st.iov.length = st.iov
    rw [List.append_assoc]
    exact List.take_left st.iov _
  · rw [nmount_fst]
    show ((st.iov ++ _) ++ _).length = st.iov.length + 2
    simp only [List.length_append, List.length_cons, List.length_nil]
  · rw [nmount_fst]
    show ((((st.iov ++ _) ++ _) ++ _) ++ _).length = st.iov.length + 4
    simp only [List.length_append, List.length_cons, List.length_nil]

/-- Claim C7: for a mountpoint convertible to a C string, `unmount` issues
the detach call and returns success exactly when the raw result is
non-negative; on failure it returns an error that is nothing but the OS
error code (the embedded error type carries no diagnostic text at all). -/
theorem unmount_errno_only (path : Bytes) (flags : Int) (k : KernelUnmount)
    (hnul : (0 : Nat) ∉ path) :
    (0 ≤ k.res → unmount path flags k = (Except.ok (), true)) ∧
    (k.res < 0 → unmount path flags k = (Except.error k.errnoVal, true)) := by
  unfold unmount with_nix_path errnoResult
  constructor
  · intro h
    have hn : ¬ k.res < 0 := not_lt.2 h
    simp [hnul, hn]
  · intro h
    simp [hnul, h]

/-- Witness for claim C7's theorem at the path bytes 102, 111 and a
failing detach call with error code 2. -/
theorem unmount_errno_only_witness :
    (0 : Nat) ∉ ([102, 111] : Bytes) ∧
    ((0 ≤ (-1 : Int) →
        unmount [102, 111] 0 ⟨-1, 2⟩ = (Except.ok (), true)) ∧
     ((-1 : Int) < 0 →
        unmount [102, 111] 0 ⟨-1, 2⟩ = (Except.error 2, true))) :=
  ⟨by decide, unmount_errno_only [102, 111] 0 ⟨-1, 2⟩ (by decide)⟩

/-- Claim C8: when the kernel call succeeds (non-negative return value),
the finalizing call returns the success result without consulting the
diagnostic buffer — the result is `Ok` and identical for every possible
buffer content. -/
theorem nmount_success_ignores_diagnostic (st : Nmount) (flags res : Int)
    (e : Nat) (buf1 buf2 : Bytes) (hres : 0 ≤ res) :
    (st.nmount flags ⟨res, e, buf1⟩).2 = Except.ok () ∧
    (st.nmount flags ⟨res, e, buf1⟩).2
        = (st.nmount flags ⟨res, e, buf2⟩).2 := by
  have hn : ¬ res < 0 := not_lt.2 hres
  have h1 := nmount_snd st flags ⟨res, e, buf1⟩
  have h2 := nmount_snd st flags ⟨res, e, buf2⟩
  rw [if_neg hn] at h1 h2
  exact ⟨h1, by rw [h1, h2]⟩

/-- Witness for claim C8's theorem at a successful call and two distinct
buffer contents. -/
theorem nmount_success_ignores_diagnostic_witness :
    (0 : Int) ≤ 0 ∧
    ((Nmount.new.nmount 0 ⟨0, 0, [1, 2]⟩).2 = Except.ok () ∧
     (Nmount.new.nmount 0 ⟨0, 0, [1, 2]⟩).2
        = (Nmount.new.nmount 0 ⟨0, 0, []⟩).2) :=
  ⟨by decide,
   nmount_success_ignores_diagnostic Nmount.new 0 0 0 [1, 2] [] (by decide)⟩

/-- Claim C9: when the kernel call fails and the 255-byte diagnostic
buffer has a non-zero first byte but no NUL anywhere, the failed
`CStr::from_bytes_until_nul` parse is discarded and the error reports the
diagnostic text as absent. -/
theorem nmount_unterminated_diagnostic_absent (st : Nmount) (flags : Int)
    (k : KernelNmount) (hres : k.res < 0) (hlen : k.bufAfter.length = 255)
    (h0 : k.bufAfter.headD 0 ≠ 0) (hnul : (0 : Nat) ∉ k.bufAfter) :
    (st.nmount flags k).2 = Except.error ⟨k.errnoVal, none⟩ := by
  rw [nmount_snd, if_pos hres, if_neg h0]
  simp [from_bytes_until_nul, hnul, NmountError.new]

set_option maxRecDepth 4000 in
/-- Witness for claim C9's theorem at a failing call whose buffer holds
255 bytes of value 1. -/
theorem nmount_unterminated_diagnostic_absent_witness :
    (-1 : Int) < 0 ∧
    (List.replicate 255 1 : Bytes).length = 255 ∧
    (List.replicate 255 1 : Bytes).headD 0 ≠ 0 ∧
    (0 : Nat) ∉ (List.replicate 255 1 : Bytes) ∧
    (Nmount.new.nmount 0 ⟨-1, 7, List.replicate 255 1⟩).2
        = Except.error ⟨7, none⟩ :=
  ⟨by decide, by decide, by decide, by decide,
   nmount_unterminated_diagnostic_absent Nmount.new 0
     ⟨-1, 7, List.replicate 255 1⟩ (by decide) (by decide) (by decide)
     (by decide)⟩

/-- Claim C10: when the mountpoint bytes contain an interior NUL, the
conversion to a C string fails, and `unmount` returns the conversion
error (EINVAL) without issuing the detach syscall at all. -/
theorem unmount_interior_nul_no_syscall (path : Bytes) (flags : Int)
    (k : KernelUnmount) (hnul : (0 : Nat) ∈ path) :
    unmount path flags k = (Except.error EINVAL, false) := by
  unfold unmount with_nix_path
  simp [hnul]

/-- Witness for claim C10's theorem at a path with an interior NUL. -/
theorem unmount_interior_nul_no_syscall_witness :
    (0 : Nat) ∈ ([102, 0, 111] : Bytes) ∧
    unmount [102, 0, 111] 0 ⟨0, 0⟩ = (Except.error EINVAL, false) :=
  ⟨by decide, unmount_interior_nul_no_syscall [102, 0, 111] 0 ⟨0, 0⟩
    (by decide)⟩

end NixMountBsd
